import Mathlib

/-!
Verification of the windowing/stitching engine of `stt_gui`
(`stt_gui/stt_app/profiles/stt_utils.py` and
`stt_gui/stt_app/profiles/wav_to_text_silero.py`).

The Python code is shallowly embedded: strings become `List Char`, audio
tensors become `List ℚ`, Python `int` becomes `ℤ`/`ℕ`, Python floats become
`ℚ` (exact arithmetic), and Python exceptions become `Except PyError`.
-/

namespace SttGui

/-- Python exceptions that the embedded code can raise:
`valueError` models the `ValueError` raised by `range(0, n, 0)`,
`typeError` models the `TypeError` raised when tuple-unpacking `None`. -/
inductive PyError where
  | valueError
  | typeError
deriving DecidableEq

/-! ## String processing: `merge_overlapping_strings`

`Levenshtein.ratio(a, b)` (python-Levenshtein) is
`(lensum - d) / lensum` where `lensum = len(a) + len(b)` and `d` is the
edit distance with substitution cost 2 (indel distance), and it returns
`1.0` on two empty strings.  Since the indel distance equals
`lensum - 2 * lcs a b`, the ratio equals `2 * lcs a b / lensum`. -/

/-- Longest-common-subsequence recursion with explicit fuel (each step
consumes one unit of fuel and shortens the combined input by at least one
character, so `lcsFuel (a.length + b.length) a b` never exhausts the fuel). -/
def lcsFuel : ℕ → List Char → List Char → ℕ
  | 0, _, _ => 0
  | _ + 1, [], _ => 0
  | _ + 1, _ :: _, [] => 0
  | fuel + 1, a :: as, b :: bs =>
    if a = b then lcsFuel fuel as bs + 1
    else max (lcsFuel fuel (a :: as) bs) (lcsFuel fuel as (b :: bs))

/-- Length of a longest common subsequence of two character lists. -/
def lcs (a b : List Char) : ℕ :=
  lcsFuel (a.length + b.length) a b

/-- The function `Levenshtein.ratio` on two character lists, as an exact rational. -/
def lev_sim (a b : List Char) : ℚ :=
  if a.length + b.length = 0 then 1
  else (2 * lcs a b : ℚ) / ((a.length : ℚ) + (b.length : ℚ))

/-- Python slice `s[-i:]`.  For `i = 0` this is the *whole* string
(`s[-0:] = s[0:] = s`), and for `i ≥ len(s)` it is also the whole string. -/
def pyTail (s : List Char) (i : ℕ) : List Char :=
  if i = 0 then s else s.drop (s.length - i)

/-- Python slice `s[:i]` for `i ≥ 0`. -/
def pyTake (s : List Char) (i : ℕ) : List Char :=
  s.take i

/-- The loop of `merge_overlapping_strings`, generalized over the score
function `f`: scan `i = 0, 1, ..., mr - 1`, overwriting the accumulator
`(match, match_score)` with `(i, f i)` whenever `thresh ≤ f i`; the
accumulator starts at `(0, -1)`. -/
def scanBest (thresh : ℚ) (f : ℕ → ℚ) (mr : ℕ) : ℕ × ℚ :=
  (List.range mr).foldl (fun acc i => if thresh ≤ f i then (i, f i) else acc) (0, -1)

/-- Similarity score checked at candidate overlap length `i`:
`Levenshtein.ratio(str1[-i:], str2[:i])`. -/
def candScore (str1 str2 : List Char) (i : ℕ) : ℚ :=
  lev_sim (pyTail str1 i) (pyTake str2 i)

/-- Candidate overlap length `i` meets the threshold. -/
def qualifies (str1 str2 : List Char) (thresh : ℚ) (i : ℕ) : Prop :=
  thresh ≤ candScore str1 str2 i

instance (str1 str2 : List Char) (thresh : ℚ) (i : ℕ) :
    Decidable (qualifies str1 str2 thresh i) := by
  unfold qualifies; infer_instance

/-- The effective search bound: `max_range` if given, else
`min(len(str1), len(str2))`. -/
def effRange (str1 str2 : List Char) (max_range : Option ℕ) : ℕ :=
  max_range.getD (min str1.length str2.length)

/-- Function `merge_overlapping_strings(str1, str2, thresh, max_range)` from
`stt_utils.py`: returns `(str1 + str2[match:], match, match_score)`. -/
def merge_overlapping_strings (str1 str2 : List Char) (thresh : ℚ)
    (max_range : Option ℕ) : List Char × ℕ × ℚ :=
  let ms := scanBest thresh (candScore str1 str2) (effRange str1 str2 max_range)
  (str1 ++ str2.drop ms.1, ms.1, ms.2)

/-- Claim C1's literal reading of the same function: at each candidate `i`
it compares "the last `i` characters of str1" (`s.drop (s.length - i)`,
which is empty at `i = 0`) with the first `i` characters of str2.  This
differs from the code exactly at `i = 0`, where Python's `str1[-0:]` is the
whole string. -/
def lastChars (s : List Char) (i : ℕ) : List Char :=
  s.drop (s.length - i)

/-- Score function of the claim's literal reading. -/
def claimScore (str1 str2 : List Char) (i : ℕ) : ℚ :=
  lev_sim (lastChars str1 i) (pyTake str2 i)

/-- Function `merge_overlapping_strings` as claim C1 literally states it. -/
def claim_merge (str1 str2 : List Char) (thresh : ℚ)
    (max_range : Option ℕ) : List Char × ℕ × ℚ :=
  let ms := scanBest thresh (claimScore str1 str2) (effRange str1 str2 max_range)
  (str1 ++ str2.drop ms.1, ms.1, ms.2)

/-! ### Characterization of the scan -/

lemma scanBest_succ (thresh : ℚ) (f : ℕ → ℚ) (n : ℕ) :
    scanBest thresh f (n + 1) =
      if thresh ≤ f n then (n, f n) else scanBest thresh f n := by
  unfold scanBest
  rw [List.range_succ, List.foldl_append]
  simp

lemma scanBest_of_forall_not (thresh : ℚ) (f : ℕ → ℚ) (mr : ℕ)
    (h : ∀ i, i < mr → ¬ thresh ≤ f i) :
    scanBest thresh f mr = (0, -1) := by
  induction mr with
  | zero => rfl
  | succ n ih =>
    rw [scanBest_succ, if_neg (h n (Nat.lt_succ_self n))]
    exact ih fun i hi => h i (Nat.lt_succ_of_lt hi)

lemma scanBest_of_greatest (thresh : ℚ) (f : ℕ → ℚ) (mr M : ℕ)
    (hM : M < mr) (hq : thresh ≤ f M)
    (hmax : ∀ j, M < j → j < mr → ¬ thresh ≤ f j) :
    scanBest thresh f mr = (M, f M) := by
  induction mr with
  | zero => omega
  | succ n ih =>
    rw [scanBest_succ]
    rcases Nat.lt_succ_iff_lt_or_eq.mp hM with hlt | rfl
    · rw [if_neg (hmax n hlt (Nat.lt_succ_self n))]
      exact ih hlt fun j h1 h2 => hmax j h1 (Nat.lt_succ_of_lt h2)
    · rw [if_pos hq]

/-! ## Windowed inference: `windowed_run`

`windowed_run(model, tnsr, max_winsize, overlap_ratio, device, chunk_hook)`
computes `winsize = min(max_winsize, len(tnsr))`,
`overlap = int(overlap_ratio * winsize)`, `stride = winsize - overlap`,
builds `window_range = list(range(0, n, stride))` and, for each start, a
zero-padded buffer of `winsize` samples which is fed to the model.
`device`/`chunk_hook` are representation plumbing and are absorbed into the
model function.  A sample is a `ℚ`; the model input batch of shape
`(1, winsize)` is represented by its single row. -/

/-- Python `int()` applied to a float: truncation toward zero. -/
def pyInt (q : ℚ) : ℤ :=
  if 0 ≤ q then ⌊q⌋ else ⌈q⌉

/-- Computes `winsize = min(max_winsize, n)`. -/
def winsizeOf (n : ℕ) (max_winsize : ℤ) : ℤ :=
  min max_winsize (n : ℤ)

/-- Computes `overlap = int(overlap_ratio * winsize)`. -/
def overlapOf (n : ℕ) (max_winsize : ℤ) (orat : ℚ) : ℤ :=
  pyInt (orat * (winsizeOf n max_winsize : ℚ))

/-- Computes `stride = winsize - overlap`. -/
def strideOf (n : ℕ) (max_winsize : ℤ) (orat : ℚ) : ℤ :=
  winsizeOf n max_winsize - overlapOf n max_winsize orat

/-- The `ceil(stop / step)` multiples of `step` below `stop`:
`[0, step, 2*step, ...]`, all `< stop` (for `step > 0`). -/
def stridedStarts (stop step : ℕ) : List ℕ :=
  (List.range ((stop + step - 1) / step)).map (· * step)

/-- Python `range(0, stop, step)` for a natural `stop`: raises `ValueError`
when `step = 0`, is empty when `step < 0` (counting down from 0 never stays
above a nonnegative `stop`), and for `step > 0` yields
`ceil(stop / step)` multiples of `step`. -/
def pyRange0 (stop : ℕ) (step : ℤ) : Except PyError (List ℕ) :=
  if step = 0 then .error .valueError
  else if step < 0 then .ok []
  else .ok (stridedStarts stop step.toNat)

/-- The zero-padded window buffer passed to the model for the window
starting at `beg`: `batch *= 0; batch[:, :len(chunk)] = tnsr[beg:beg+winsize]`. -/
def windowBuffer (tnsr : List ℚ) (beg w : ℕ) : List ℚ :=
  let chunk := (tnsr.drop beg).take w
  chunk ++ List.replicate (w - chunk.length) 0

/-- The tuple returned by `windowed_run`:
`(chunks, window_range, winsize, overlap)`. -/
structure WRun (α : Type) where
  chunks : List α
  begs : List ℕ
  winsize : ℤ
  overlap : ℤ
deriving DecidableEq

/-- Function `windowed_run` from `stt_utils.py`. -/
def windowed_run {α : Type} (mdl : List ℚ → α) (tnsr : List ℚ)
    (max_winsize : ℤ) (orat : ℚ) : Except PyError (WRun α) :=
  match pyRange0 tnsr.length (strideOf tnsr.length max_winsize orat) with
  | .error e => .error e
  | .ok begs =>
      .ok ⟨begs.map (fun b => mdl (windowBuffer tnsr b (winsizeOf tnsr.length max_winsize).toNat)),
           begs, winsizeOf tnsr.length max_winsize, overlapOf tnsr.length max_winsize orat⟩

/-! ## Audio stitching: `linear_fade` and `windowed_audio_rendering` -/

/-- The per-index gain applied by `linear_fade(tnsr, fade_in, fade_out)` to
a tensor of length `n`:
`tnsr[:fade_in+1] *= linspace(0, 1, fade_in+2)[1:]` scales index
`i ≤ fade_in` by `(i+1)/(fade_in+1)` (only when `fade_in > 0`), and
`tnsr[-fade_out-1:] *= linspace(1, 0, fade_out+2)[:-1]` scales index
`i ≥ n - fade_out - 1` by `(n-i)/(fade_out+1)` (only when `fade_out > 0`). -/
def fade_factor (n fi fo i : ℕ) : ℚ :=
  (if 0 < fi ∧ i < fi + 1 then ((i : ℚ) + 1) / ((fi : ℚ) + 1) else 1) *
  (if 0 < fo ∧ n ≤ i + fo + 1 then ((n : ℚ) - (i : ℚ)) / ((fo : ℚ) + 1) else 1)

/-- Function `linear_fade` from `stt_utils.py`, as a pure function (the Python code
mutates its argument in place). -/
def linear_fade (xs : List ℚ) (fi fo : ℕ) : List ℚ :=
  (List.range xs.length).map (fun i => xs.getD i 0 * fade_factor xs.length fi fo i)

/-- Fades applied by `windowed_audio_rendering`: every chunk except the
first gets `fade_in = overlap`, every chunk except the last gets
`fade_out = overlap`. -/
def applyFades (chunks : List (List ℚ)) (ov : ℕ) : List (List ℚ) :=
  (List.range chunks.length).map (fun i =>
    linear_fade (chunks.getD i [])
      (if 1 ≤ i then ov else 0)
      (if i + 1 < chunks.length then ov else 0))

/-- The in-place update `result[beg:beg+len(xs)] += xs` on a buffer `res`, as a pure function. -/
def addAt (res : List ℚ) (beg : ℕ) (xs : List ℚ) : List ℚ :=
  (List.range res.length).map (fun i =>
    res.getD i 0 + (if beg ≤ i ∧ i < beg + xs.length then xs.getD (i - beg) 0 else 0))

/-- The overlay loop of `windowed_audio_rendering`: start from
`zeros_like(tnsr)` and, for each `(beg, ch)`, add
`ch[:min(beg+winsize, n) - beg]` at offset `beg`. -/
def overlayChunks (n w : ℕ) (begs : List ℕ) (chunks : List (List ℚ)) : List ℚ :=
  (begs.zip chunks).foldl
    (fun res p => addAt res p.1 (p.2.take (min (p.1 + w) n - p.1)))
    (List.replicate n 0)

/-- Function `windowed_audio_rendering` from `stt_utils.py` (the model's `(1, n)`
output batch is represented by its row `ch[0]`). -/
def windowed_audio_rendering (mdl : List ℚ → List ℚ) (tnsr : List ℚ)
    (max_winsize : ℤ) (orat : ℚ) :
    Except PyError (List ℚ × List ℕ × ℤ × ℤ) :=
  match windowed_run mdl tnsr max_winsize orat with
  | .error e => .error e
  | .ok r =>
      .ok (overlayChunks tnsr.length r.winsize.toNat r.begs
             (applyFades r.chunks r.overlap.toNat),
           r.begs, r.winsize, r.overlap)

/-! ## Text stitching: `windowed_stt_rendering` -/

/-- One step of the merge fold of `windowed_stt_rendering`: merge the next
chunk into the running string and append the merge's score. -/
def sttStep (thresh : ℚ) (mc : ℕ) (acc : List Char × List ℚ)
    (ch : List Char) : List Char × List ℚ :=
  ((merge_overlapping_strings acc.1 ch thresh (some mc)).1,
   acc.2 ++ [(merge_overlapping_strings acc.1 ch thresh (some mc)).2.2])

/-- The merge fold of `windowed_stt_rendering`: starting from the empty
accumulator, merge each chunk in order and record each merge's score. -/
def stt_fold (thresh : ℚ) (mc : ℕ) (chunks : List (List Char)) :
    List Char × List ℚ :=
  chunks.foldl (sttStep thresh mc) ([], [])

/-- Function `windowed_stt_rendering` from `stt_utils.py` (the chunk hook
`ch[0][0]` extracting the decoded text is absorbed into the model). -/
def windowed_stt_rendering (mdl : List ℚ → List Char) (tnsr : List ℚ)
    (max_winsize : ℤ) (orat thresh : ℚ) (mc : ℕ) :
    Except PyError (List Char × List ℚ) :=
  match windowed_run mdl tnsr max_winsize orat with
  | .error e => .error e
  | .ok r => .ok (stt_fold thresh mc r.chunks)

/-! ## Worker with cooperative abort (`wav_to_text_silero.py`)

`WavToTextSileroWorker.windowed_run` and `.windowed_stt_rendering` are the
same algorithms with `if self._abort: return` checked at the top of each
loop iteration (a bare `return`, i.e. `None`, discarding everything
collected so far).  The externally mutated abort flag is modeled as the
sequence of values `ab : ℕ → Bool` observed at the successive checks:
`windowed_run` performs one check per window (indices `0, 1, ...`), and on
a successful run the merge loop's checks continue the numbering. -/

/-- The window loop with per-iteration abort checks: check `ab i`, and if
set return `none` (the Python `return` of `None`); otherwise process the
window and continue. -/
def runWindows {α : Type} (ab : ℕ → Bool) (f : ℕ → α) :
    ℕ → List ℕ → Option (List α)
  | _, [] => some []
  | i, b :: bs =>
      if ab i then none
      else (runWindows ab f (i + 1) bs).map (f b :: ·)

/-- Method `WavToTextSileroWorker.windowed_run`: `None` when aborted. -/
def worker_windowed_run {α : Type} (ab : ℕ → Bool) (mdl : List ℚ → α)
    (tnsr : List ℚ) (max_winsize : ℤ) (orat : ℚ) :
    Except PyError (Option (WRun α)) :=
  match pyRange0 tnsr.length (strideOf tnsr.length max_winsize orat) with
  | .error e => .error e
  | .ok begs =>
      match runWindows ab
          (fun b => mdl (windowBuffer tnsr b (winsizeOf tnsr.length max_winsize).toNat)) 0 begs with
      | none => .ok none
      | some chunks =>
          .ok (some ⟨chunks, begs, winsizeOf tnsr.length max_winsize,
                     overlapOf tnsr.length max_winsize orat⟩)

/-- The merge loop of the worker, with abort checks continuing at index
`i`. -/
def mergeLoop (ab : ℕ → Bool) (thresh : ℚ) (mc : ℕ) :
    ℕ → (List Char × List ℚ) → List (List Char) → Option (List Char × List ℚ)
  | _, acc, [] => some acc
  | i, acc, ch :: rest =>
      if ab i then none
      else
        let m := merge_overlapping_strings acc.1 ch thresh (some mc)
        mergeLoop ab thresh mc (i + 1) (m.1, acc.2 ++ [m.2.2]) rest

/-- Method `WavToTextSileroWorker.windowed_stt_rendering`: when the inner
`windowed_run` was aborted it returns `None`, and the tuple unpacking
`chunks, begs, winsize, overlap = None` raises a `TypeError`; when the
merge loop itself is aborted, the function returns `None`. -/
def worker_windowed_stt_rendering (ab : ℕ → Bool) (mdl : List ℚ → List Char)
    (tnsr : List ℚ) (max_winsize : ℤ) (orat thresh : ℚ) (mc : ℕ) :
    Except PyError (Option (List Char × List ℚ)) :=
  match worker_windowed_run ab mdl tnsr max_winsize orat with
  | .error e => .error e
  | .ok none => .error .typeError
  | .ok (some r) =>
      match mergeLoop ab thresh mc r.begs.length ([], []) r.chunks with
      | none => .ok none
      | some acc => .ok (some acc)

/-! ## Theorems -/

lemma pyTail_nil (i : ℕ) : pyTail [] i = [] := by
  simp [pyTail]

lemma lcs_nil (l : List Char) : lcs [] l = 0 := by
  cases l <;> rfl

lemma lev_sim_nil_nil : lev_sim [] [] = 1 := rfl

lemma lev_sim_nil_of_ne (l : List Char) (h : l ≠ []) : lev_sim [] l = 0 := by
  have hl : l.length ≠ 0 := by simpa using h
  simp [lev_sim, lcs_nil, hl]

/-- Claim C1 (amended).  For all `str1, str2, thresh` and `max_range`
(defaulting to `min (len str1) (len str2)`), `merge_overlapping_strings`
returns `(str1 ++ str2[match:], match, match_score)` where: if no
candidate `i < max_range` has `Levenshtein.ratio(str1[-i:], str2[:i]) ≥
thresh` then `match = 0` and `match_score = -1`; otherwise `match` is the
*largest* qualifying `i` (scanned in increasing order, overwriting at every
qualifying `i`) and `match_score` its similarity.  Note the Python slice
`str1[-i:]`: at `i = 0` the whole `str1` is compared against the empty
string, not two empty strings. -/
theorem merge_overlapping_strings_characterization
    (str1 str2 : List Char) (thresh : ℚ) (max_range : Option ℕ) :
    (merge_overlapping_strings str1 str2 thresh max_range).1
        = str1 ++ str2.drop (merge_overlapping_strings str1 str2 thresh max_range).2.1
      ∧ ((∀ i, i < effRange str1 str2 max_range → ¬ qualifies str1 str2 thresh i) →
          (merge_overlapping_strings str1 str2 thresh max_range).2.1 = 0
            ∧ (merge_overlapping_strings str1 str2 thresh max_range).2.2 = -1)
      ∧ (∀ M, M < effRange str1 str2 max_range → qualifies str1 str2 thresh M →
          (∀ j, M < j → j < effRange str1 str2 max_range →
            ¬ qualifies str1 str2 thresh j) →
          (merge_overlapping_strings str1 str2 thresh max_range).2.1 = M
            ∧ (merge_overlapping_strings str1 str2 thresh max_range).2.2
                = candScore str1 str2 M) := by
  refine ⟨rfl, ?_, ?_⟩
  · intro h
    have hs := scanBest_of_forall_not thresh (candScore str1 str2)
      (effRange str1 str2 max_range) (fun i hi => h i hi)
    constructor <;> simp [merge_overlapping_strings, hs]
  · intro M hM hq hmax
    have hs := scanBest_of_greatest thresh (candScore str1 str2)
      (effRange str1 str2 max_range) M hM hq (fun j h1 h2 => hmax j h1 h2)
    constructor <;> simp [merge_overlapping_strings, hs]

unseal Rat.add Rat.mul Rat.inv in
/-- Witness for C1's amended theorem at `str1 = "ab"`, `str2 = "bc"`,
`thresh = 1/2`: the only qualifying candidate is `i = 1` (`"b"` vs `"b"`),
so `match = 1` with its score. -/
theorem merge_overlapping_strings_characterization_witness :
    (merge_overlapping_strings ['a','b'] ['b','c'] (1/2) none).2.1 = 1
      ∧ (merge_overlapping_strings ['a','b'] ['b','c'] (1/2) none).2.2
          = candScore ['a','b'] ['b','c'] 1 :=
  (merge_overlapping_strings_characterization ['a','b'] ['b','c'] (1/2) none).2.2 1
    (by decide) (by decide)
    (fun j hj hj2 => absurd hj (by simp [effRange] at hj2; omega))

unseal Rat.add Rat.mul Rat.inv in
/-- Counterexample to C1 as stated: on `("abc", "def", thresh = 0.99)` the
code returns `match_score = -1` (at `i = 0` it scores
`ratio("abc", "") = 0 < 0.99`), while the claim's reading — comparing "the
last 0 characters" with "the first 0 characters", i.e. two empty strings —
scores `1 ≥ 0.99` at `i = 0` and would return `match_score = 1`. -/
theorem merge_claim_counterexample :
    merge_overlapping_strings ['a','b','c'] ['d','e','f'] (99/100) none
        = (['a','b','c','d','e','f'], 0, -1)
      ∧ claim_merge ['a','b','c'] ['d','e','f'] (99/100) none
        = (['a','b','c','d','e','f'], 0, 1)
      ∧ ((-1 : ℚ) ≠ 1) :=
  ⟨rfl, rfl, by norm_num⟩

unseal Rat.add Rat.mul Rat.inv in
/-- Claim C8.  `merge_overlapping_strings("abc", "def", thresh=0.99)` returns
the sentinel `match_score = -1` and the plain concatenation `"abcdef"`:
no candidate overlap length in the search range `[0, 3)` — including the
length-0 boundary candidate, which compares the whole `"abc"` against `""`
and scores `0` — meets the `0.99` threshold. -/
theorem merge_no_overlap_example :
    merge_overlapping_strings ['a','b','c'] ['d','e','f'] (99/100) none
        = (['a','b','c','d','e','f'], 0, -1)
      ∧ (∀ i, i < effRange ['a','b','c'] ['d','e','f'] none →
          ¬ qualifies ['a','b','c'] ['d','e','f'] (99/100) i) :=
  ⟨rfl, by decide⟩

lemma getD_range_map (f : ℕ → ℚ) (n i : ℕ) (h : i < n) :
    ((List.range n).map f).getD i 0 = f i := by
  rw [List.getD_eq_getElem?_getD, List.getElem?_map, List.getElem?_range h]
  rfl

lemma getD_replicate_one (n i : ℕ) (h : i < n) :
    (List.replicate n (1 : ℚ)).getD i 0 = 1 := by
  rw [List.getD_eq_getElem?_getD, List.getElem?_replicate]
  simp [h]

lemma linear_fade_getD (xs : List ℚ) (fi fo i : ℕ) (h : i < xs.length) :
    (linear_fade xs fi fo).getD i 0 = xs.getD i 0 * fade_factor xs.length fi fo i :=
  getD_range_map _ _ _ h

/-- Claim C2.  Crossfade identity: for every overlap length `k ≥ 1`, summing
an all-ones chunk of length `m1 ≥ k+1` faded out by `linear_fade` with
`fade_out = k` and an all-ones chunk of length `m2 ≥ k` faded in with
`fade_in = k`, aligned so that the last `k` samples of the first chunk
coincide with the first `k` samples of the second, gives exactly `1` at
every overlap position `j < k` (exact rational arithmetic). -/
theorem crossfade_sums_to_one (k m1 m2 j : ℕ)
    (hk : 1 ≤ k) (hm1 : k + 1 ≤ m1) (hm2 : k ≤ m2) (hj : j < k) :
    (linear_fade (List.replicate m1 1) 0 k).getD (m1 - k + j) 0
      + (linear_fade (List.replicate m2 1) k 0).getD j 0 = 1 := by
  have h1 : m1 - k + j < m1 := by omega
  have h2 : j < m2 := by omega
  rw [linear_fade_getD _ _ _ _ (by simpa using h1),
      linear_fade_getD _ _ _ _ (by simpa using h2),
      getD_replicate_one _ _ h1, getD_replicate_one _ _ h2]
  simp only [fade_factor, List.length_replicate]
  rw [if_neg (by omega), if_pos (by omega : 0 < k ∧ m1 ≤ m1 - k + j + k + 1),
      if_pos (by omega : 0 < k ∧ j < k + 1), if_neg (by omega)]
  have hkm : k ≤ m1 := by omega
  have hk0 : ((k : ℚ) + 1) ≠ 0 := by positivity
  push_cast [Nat.cast_sub hkm]
  field_simp
  ring

unseal Rat.add Rat.mul Rat.inv in
/-- Witness for C2 at `k = 2`, chunk lengths `4` and `3`, overlap position
`j = 1`. -/
theorem crossfade_sums_to_one_witness :
    (1 ≤ 2 ∧ 2 + 1 ≤ 4 ∧ 2 ≤ 3 ∧ 1 < 2)
      ∧ (linear_fade (List.replicate 4 1) 0 2).getD (4 - 2 + 1) 0
          + (linear_fade (List.replicate 3 1) 2 0).getD 1 0 = 1 :=
  ⟨by decide, crossfade_sums_to_one 2 4 3 1 (by decide) (by decide) (by decide) (by decide)⟩

/-! ### Valid window plans -/

/-- The start offsets `range(0, n, stride)` produced on a valid plan. -/
def begsOf (n : ℕ) (mw : ℤ) (orat : ℚ) : List ℕ :=
  stridedStarts n (strideOf n mw orat).toNat

lemma mem_stridedStarts (n s : ℕ) (hs : 0 < s) (b : ℕ) :
    b ∈ stridedStarts n s ↔ (∃ i, b = i * s) ∧ b < n := by
  constructor
  · intro hb
    rw [stridedStarts, List.mem_map] at hb
    obtain ⟨i, hi, rfl⟩ := hb
    rw [List.mem_range] at hi
    have h2 : (i + 1) * s ≤ n + s - 1 := (Nat.le_div_iff_mul_le hs).mp hi
    have h3 : (i + 1) * s = i * s + s := by ring
    exact ⟨⟨i, rfl⟩, by omega⟩
  · rintro ⟨⟨i, rfl⟩, hb⟩
    rw [stridedStarts, List.mem_map]
    refine ⟨i, List.mem_range.mpr ?_, rfl⟩
    refine (Nat.le_div_iff_mul_le hs).mpr ?_
    show (i + 1) * s ≤ n + s - 1
    have h3 : (i + 1) * s = i * s + s := by ring
    omega

lemma stridedStarts_head (n s : ℕ) (hs : 0 < s) (hn : 1 ≤ n) :
    (stridedStarts n s).head? = some 0 := by
  have hK : 1 ≤ (n + s - 1) / s := (Nat.le_div_iff_mul_le hs).mpr (by omega)
  obtain ⟨K, hKeq⟩ : ∃ K, (n + s - 1) / s = K + 1 := ⟨(n + s - 1) / s - 1, by omega⟩
  rw [stridedStarts, hKeq, List.range_succ_eq_map]
  simp

lemma stridedStarts_pairwise (n s : ℕ) (hs : 0 < s) :
    List.Pairwise (· < ·) (stridedStarts n s) :=
  (List.pairwise_lt_range _).map _ (fun _ _ hab => (Nat.mul_lt_mul_right hs).mpr hab)

lemma stridedStarts_cover (n s w : ℕ) (hs : 0 < s) (hsw : s ≤ w)
    (idx : ℕ) (hidx : idx < n) :
    ∃ b ∈ stridedStarts n s, b ≤ idx ∧ idx < b + w := by
  have hble : idx / s * s ≤ idx := Nat.div_mul_le_self idx s
  refine ⟨idx / s * s, ?_, hble, ?_⟩
  · rw [mem_stridedStarts n s hs]
    exact ⟨⟨idx / s, rfl⟩, lt_of_le_of_lt hble hidx⟩
  · have h1 : idx / s * s + idx % s = idx := by
      rw [Nat.mul_comm]; exact Nat.div_add_mod idx s
    have h2 : idx % s < s := Nat.mod_lt _ hs
    omega

lemma winsize_bounds (n : ℕ) (mw : ℤ) (hn : 1 ≤ n) (hmw : 1 ≤ mw) :
    1 ≤ winsizeOf n mw ∧ winsizeOf n mw ≤ (n : ℤ) :=
  ⟨le_min hmw (by exact_mod_cast hn), min_le_right _ _⟩

lemma overlap_nonneg (n : ℕ) (mw : ℤ) (orat : ℚ) (h0 : 0 ≤ orat)
    (hw : 0 ≤ winsizeOf n mw) : 0 ≤ overlapOf n mw orat := by
  unfold overlapOf pyInt
  have hq : (0 : ℚ) ≤ orat * (winsizeOf n mw : ℚ) :=
    mul_nonneg h0 (by exact_mod_cast hw)
  rw [if_pos hq]
  exact Int.le_floor.mpr (by exact_mod_cast hq)

lemma overlap_lt_winsize (n : ℕ) (mw : ℤ) (orat : ℚ) (h0 : 0 ≤ orat)
    (h1 : orat < 1) (hw : 1 ≤ winsizeOf n mw) :
    overlapOf n mw orat < winsizeOf n mw := by
  unfold overlapOf pyInt
  have hwq : (0 : ℚ) < (winsizeOf n mw : ℚ) := by exact_mod_cast hw
  have hq : (0 : ℚ) ≤ orat * (winsizeOf n mw : ℚ) := mul_nonneg h0 (le_of_lt hwq)
  rw [if_pos hq]
  refine Int.floor_lt.mpr ?_
  calc orat * (winsizeOf n mw : ℚ) < 1 * (winsizeOf n mw : ℚ) :=
        mul_lt_mul_of_pos_right h1 hwq
    _ = _ := one_mul _

lemma stride_facts (n : ℕ) (mw : ℤ) (orat : ℚ) (hn : 1 ≤ n) (hmw : 1 ≤ mw)
    (h0 : 0 ≤ orat) (h1 : orat < 1) :
    0 < strideOf n mw orat ∧ strideOf n mw orat ≤ winsizeOf n mw := by
  obtain ⟨hw1, _⟩ := winsize_bounds n mw hn hmw
  have hov := overlap_nonneg n mw orat h0 (le_trans zero_le_one hw1)
  have hlt := overlap_lt_winsize n mw orat h0 h1 hw1
  unfold strideOf
  omega

lemma pyRange0_pos (stop : ℕ) (step : ℤ) (h : 0 < step) :
    pyRange0 stop step = .ok (stridedStarts stop step.toNat) := by
  unfold pyRange0
  rw [if_neg (by omega), if_neg (by omega)]

lemma windowed_run_valid {α : Type} (mdl : List ℚ → α) (tnsr : List ℚ)
    (mw : ℤ) (orat : ℚ) (hn : 1 ≤ tnsr.length) (hmw : 1 ≤ mw)
    (h0 : 0 ≤ orat) (h1 : orat < 1) :
    windowed_run mdl tnsr mw orat
      = .ok ⟨(begsOf tnsr.length mw orat).map
               (fun b => mdl (windowBuffer tnsr b (winsizeOf tnsr.length mw).toNat)),
             begsOf tnsr.length mw orat,
             winsizeOf tnsr.length mw, overlapOf tnsr.length mw orat⟩ := by
  obtain ⟨hs, _⟩ := stride_facts tnsr.length mw orat hn hmw h0 h1
  unfold windowed_run
  rw [pyRange0_pos _ _ hs]
  rfl

lemma stride_toNat_pos (n : ℕ) (mw : ℤ) (orat : ℚ) (hn : 1 ≤ n) (hmw : 1 ≤ mw)
    (h0 : 0 ≤ orat) (h1 : orat < 1) :
    0 < (strideOf n mw orat).toNat
      ∧ (strideOf n mw orat).toNat ≤ (winsizeOf n mw).toNat
      ∧ (winsizeOf n mw).toNat ≤ n := by
  obtain ⟨hs, hsw⟩ := stride_facts n mw orat hn hmw h0 h1
  obtain ⟨_, hwn⟩ := winsize_bounds n mw hn hmw
  omega

/-- Claim C3.  For every signal of length `n ≥ 1`, `max_winsize ≥ 1` and
`overlap_ratio ∈ [0, 1)`, the Windower succeeds and its start offsets are
exactly the multiples of `stride` below `n`: membership is characterized
by `b = i * stride ∧ b < n`, the offsets are strictly increasing and begin
at `0`, and every sample index in `[0, n)` lies in `[b, b + winsize)` for
some generated start `b`. -/
theorem windower_start_offsets {α : Type} (mdl : List ℚ → α) (tnsr : List ℚ)
    (mw : ℤ) (orat : ℚ) (hn : 1 ≤ tnsr.length) (hmw : 1 ≤ mw)
    (h0 : 0 ≤ orat) (h1 : orat < 1) :
    ∃ r : WRun α, windowed_run mdl tnsr mw orat = .ok r
      ∧ (∀ b, b ∈ r.begs
          ↔ ((∃ i, b = i * (strideOf tnsr.length mw orat).toNat) ∧ b < tnsr.length))
      ∧ List.Pairwise (· < ·) r.begs
      ∧ r.begs.head? = some 0
      ∧ (∀ idx, idx < tnsr.length →
          ∃ b ∈ r.begs, b ≤ idx ∧ idx < b + (winsizeOf tnsr.length mw).toNat) := by
  obtain ⟨hs1, hs2, _⟩ := stride_toNat_pos tnsr.length mw orat hn hmw h0 h1
  exact ⟨_, windowed_run_valid mdl tnsr mw orat hn hmw h0 h1,
    fun b => mem_stridedStarts tnsr.length _ hs1 b,
    stridedStarts_pairwise _ _ hs1,
    stridedStarts_head _ _ hs1 hn,
    fun idx hidx => stridedStarts_cover tnsr.length _ _ hs1 hs2 idx hidx⟩

unseal Rat.add Rat.mul Rat.inv in
/-- Witness for C3 at `tnsr = [1, 2, 3]`, `max_winsize = 2`,
`overlap_ratio = 1/2` (so `winsize = 2`, `overlap = 1`, `stride = 1`,
starts `[0, 1, 2]`). -/
theorem windower_start_offsets_witness :
    (1 ≤ ([1, 2, 3] : List ℚ).length ∧ 1 ≤ (2 : ℤ)
        ∧ (0 : ℚ) ≤ 1/2 ∧ (1/2 : ℚ) < 1)
      ∧ ∃ r : WRun (List ℚ),
          windowed_run (fun l => l) ([1, 2, 3] : List ℚ) 2 (1/2) = .ok r
            ∧ (∀ b, b ∈ r.begs
                ↔ ((∃ i, b = i * (strideOf ([1, 2, 3] : List ℚ).length 2 (1/2)).toNat)
                    ∧ b < ([1, 2, 3] : List ℚ).length))
            ∧ List.Pairwise (· < ·) r.begs
            ∧ r.begs.head? = some 0
            ∧ (∀ idx, idx < ([1, 2, 3] : List ℚ).length →
                ∃ b ∈ r.begs, b ≤ idx
                  ∧ idx < b + (winsizeOf ([1, 2, 3] : List ℚ).length 2).toNat) :=
  ⟨⟨by decide, by decide, by decide, by decide⟩,
   windower_start_offsets (fun l => l) ([1, 2, 3] : List ℚ) 2 (1/2)
     (by decide) (by decide) (by decide) (by decide)⟩

unseal Rat.add Rat.mul Rat.inv in
/-- Counterexample to C5: at `tnsr = []` (so `n = 0`), `max_winsize = -1`
and `overlap_ratio = 0` we have `winsize = -1 ≤ 0` and `n = 0`, yet the
call does *not* fail — `stride = -1 < 0` makes `range(0, 0, -1)` empty and
`windowed_run` returns a successful empty result.  No dedicated
`InvalidWindowParameters` error exists anywhere in the code. -/
theorem invalid_params_counterexample :
    windowed_run (fun _ => (0 : ℚ)) ([] : List ℚ) (-1) 0 = .ok ⟨[], [], -1, 0⟩
      ∧ winsizeOf ([] : List ℚ).length (-1) ≤ 0
      ∧ ([] : List ℚ).length = 0 :=
  ⟨rfl, by decide, rfl⟩

/-- Claim C5 (amended).  The code performs no explicit validation: when
`stride = 0` (in particular when `winsize = 0`, which covers `n = 0` with
`max_winsize ≥ 0`), `range(0, n, 0)` raises a generic `ValueError` before
any model call; when `stride < 0` the call instead *succeeds* with an
empty window list and no model calls; and for `0 ≤ overlap_ratio < 1`,
`winsize ≤ 0` or `n = 0` always give `stride ≤ 0`.  There is no dedicated
`InvalidWindowParameters` error. -/
theorem windowed_run_invalid_params {α : Type} (mdl : List ℚ → α)
    (tnsr : List ℚ) (mw : ℤ) (orat : ℚ) :
    (strideOf tnsr.length mw orat = 0 →
        windowed_run mdl tnsr mw orat = .error .valueError)
      ∧ (strideOf tnsr.length mw orat < 0 →
          windowed_run mdl tnsr mw orat
            = .ok ⟨[], [], winsizeOf tnsr.length mw, overlapOf tnsr.length mw orat⟩)
      ∧ (0 ≤ orat → orat < 1 →
          (winsizeOf tnsr.length mw ≤ 0 ∨ tnsr.length = 0) →
          strideOf tnsr.length mw orat ≤ 0) := by
  refine ⟨?_, ?_, ?_⟩
  · intro h
    unfold windowed_run
    rw [h]
    rfl
  · intro h
    have hp : pyRange0 tnsr.length (strideOf tnsr.length mw orat) = .ok [] := by
      unfold pyRange0
      rw [if_neg (by omega), if_pos h]
    unfold windowed_run
    rw [hp]
    rfl
  · intro h0 h1 hcase
    have hw : winsizeOf tnsr.length mw ≤ 0 := by
      rcases hcase with h | h
      · exact h
      · have hz : ((tnsr.length : ℤ)) = 0 := by exact_mod_cast h
        unfold winsizeOf
        rw [hz]
        exact min_le_right _ _
    unfold strideOf overlapOf pyInt
    rcases eq_or_lt_of_le hw with heq | hlt
    · rw [heq]
      norm_num
    · split
      · have hfl : 0 ≤ ⌊orat * ((winsizeOf tnsr.length mw : ℤ) : ℚ)⌋ :=
          Int.le_floor.mpr (by exact_mod_cast ‹0 ≤ orat * _›)
        omega
      · have hwq : ((winsizeOf tnsr.length mw : ℤ) : ℚ) < 0 := by exact_mod_cast hlt
        have hq : ((winsizeOf tnsr.length mw : ℤ) : ℚ)
            < orat * ((winsizeOf tnsr.length mw : ℤ) : ℚ) := by
          calc ((winsizeOf tnsr.length mw : ℤ) : ℚ)
              = 1 * ((winsizeOf tnsr.length mw : ℤ) : ℚ) := (one_mul _).symm
            _ < orat * _ := mul_lt_mul_of_neg_right h1 hwq
        have hc : winsizeOf tnsr.length mw
            < ⌈orat * ((winsizeOf tnsr.length mw : ℤ) : ℚ)⌉ := Int.lt_ceil.mpr hq
        omega

unseal Rat.add Rat.mul Rat.inv in
/-- Witness for C5's amended theorem at `tnsr = []`, `max_winsize = 0`,
`overlap_ratio = 0`: `stride = 0` and the call raises the modeled
`ValueError`. -/
theorem windowed_run_invalid_params_witness :
    strideOf ([] : List ℚ).length 0 0 = 0
      ∧ windowed_run (fun _ => (0 : ℚ)) ([] : List ℚ) 0 0 = .error .valueError :=
  ⟨rfl, (windowed_run_invalid_params (fun _ => (0 : ℚ)) ([] : List ℚ) 0 0).1 rfl⟩

lemma windowBuffer_length (tnsr : List ℚ) (b w : ℕ) :
    (windowBuffer tnsr b w).length = w := by
  unfold windowBuffer
  simp only [List.length_append, List.length_replicate, List.length_take,
    List.length_drop]
  omega

/-- Claim C6.  On a valid run, every generated window whose
`start + winsize` exceeds the signal length gets the buffer
`signal[start:n] ++ zeros` padded to exactly `winsize` samples; and every
window buffer has exactly `winsize` samples. -/
theorem window_padding {α : Type} (mdl : List ℚ → α) (tnsr : List ℚ)
    (mw : ℤ) (orat : ℚ) (r : WRun α) (b : ℕ)
    (hn : 1 ≤ tnsr.length) (hmw : 1 ≤ mw) (h0 : 0 ≤ orat) (h1 : orat < 1)
    (hr : windowed_run mdl tnsr mw orat = .ok r) (hb : b ∈ r.begs) :
    (windowBuffer tnsr b r.winsize.toNat).length = r.winsize.toNat
      ∧ ((tnsr.length : ℤ) < (b : ℤ) + r.winsize →
          windowBuffer tnsr b r.winsize.toNat
            = tnsr.drop b ++ List.replicate (r.winsize.toNat - (tnsr.length - b)) 0) := by
  rw [windowed_run_valid mdl tnsr mw orat hn hmw h0 h1] at hr
  have hinj := Except.ok.inj hr
  subst hinj
  obtain ⟨hs1, hs2, hs3⟩ := stride_toNat_pos tnsr.length mw orat hn hmw h0 h1
  obtain ⟨hw1, hwn⟩ := winsize_bounds tnsr.length mw hn hmw
  dsimp only at hb ⊢
  have hbn : b < tnsr.length :=
    ((mem_stridedStarts tnsr.length _ hs1 b).mp hb).2
  refine ⟨windowBuffer_length tnsr b _, fun hover => ?_⟩
  have hdl : tnsr.length - b ≤ (winsizeOf tnsr.length mw).toNat := by omega
  unfold windowBuffer
  have hchunk : (tnsr.drop b).take (winsizeOf tnsr.length mw).toNat = tnsr.drop b := by
    apply List.take_of_length_le
    simp only [List.length_drop]
    omega
  rw [hchunk]
  simp only [List.length_drop]

/-- The concrete run used by C6's witness: `tnsr = [1, 2, 3]`,
`max_winsize = 2`, `overlap_ratio = 1/2`, identity model. -/
def padRun : WRun (List ℚ) :=
  ⟨[[1, 2], [2, 3], [3, 0]], [0, 1, 2], 2, 1⟩

unseal Rat.add Rat.mul Rat.inv in
/-- Witness for C6 at the last window `beg = 2` of a 3-sample signal with
`winsize = 2`: the buffer is `[3, 0]`, i.e. `signal[2:3]` plus one zero. -/
theorem window_padding_witness :
    (1 ≤ ([1, 2, 3] : List ℚ).length ∧ 1 ≤ (2 : ℤ)
        ∧ (0 : ℚ) ≤ 1/2 ∧ (1/2 : ℚ) < 1
        ∧ windowed_run (fun l => l) ([1, 2, 3] : List ℚ) 2 (1/2) = .ok padRun
        ∧ 2 ∈ padRun.begs)
      ∧ ((windowBuffer ([1, 2, 3] : List ℚ) 2 padRun.winsize.toNat).length
            = padRun.winsize.toNat
          ∧ ((([1, 2, 3] : List ℚ).length : ℤ) < (2 : ℕ) + padRun.winsize →
              windowBuffer ([1, 2, 3] : List ℚ) 2 padRun.winsize.toNat
                = ([1, 2, 3] : List ℚ).drop 2
                  ++ List.replicate (padRun.winsize.toNat
                      - (([1, 2, 3] : List ℚ).length - 2)) 0)) :=
  ⟨⟨by decide, by decide, by decide, by decide, rfl, by decide⟩,
   window_padding (fun l => l) ([1, 2, 3] : List ℚ) 2 (1/2) padRun 2
     (by decide) (by decide) (by decide) (by decide) (by rfl) (by decide)⟩

lemma addAt_length (res : List ℚ) (beg : ℕ) (xs : List ℚ) :
    (addAt res beg xs).length = res.length := by
  simp [addAt]

lemma overlay_foldl_length (n w : ℕ) (l : List (ℕ × List ℚ)) (res : List ℚ) :
    (l.foldl (fun r p => addAt r p.1 (p.2.take (min (p.1 + w) n - p.1))) res).length
      = res.length := by
  induction l generalizing res with
  | nil => rfl
  | cons p l ih => rw [List.foldl_cons, ih, addAt_length]

lemma overlayChunks_length (n w : ℕ) (begs : List ℕ) (chunks : List (List ℚ)) :
    (overlayChunks n w begs chunks).length = n := by
  unfold overlayChunks
  rw [overlay_foldl_length]
  exact List.length_replicate n 0

/-- Claim C7.  For every valid `windowed_audio_rendering` run (with a model
that preserves the window length, as the rendering assumes), the stitched
output has exactly the length of the input signal, regardless of
`max_winsize` and `overlap_ratio`.  (Dtype, device and fresh allocation
are representation properties outside this embedding; the embedding is a
pure function of the input, which is never mutated.) -/
theorem stitched_length (mdl : List ℚ → List ℚ) (tnsr : List ℚ)
    (mw : ℤ) (orat : ℚ) (hmdl : ∀ xs, (mdl xs).length = xs.length)
    (hn : 1 ≤ tnsr.length) (hmw : 1 ≤ mw) (h0 : 0 ≤ orat) (h1 : orat < 1) :
    ∃ out rest, windowed_audio_rendering mdl tnsr mw orat = .ok (out, rest)
      ∧ out.length = tnsr.length := by
  unfold windowed_audio_rendering
  rw [windowed_run_valid mdl tnsr mw orat hn hmw h0 h1]
  exact ⟨_, _, rfl, overlayChunks_length _ _ _ _⟩

unseal Rat.add Rat.mul Rat.inv in
/-- Witness for C7 with the identity model on `tnsr = [1, 2]`,
`max_winsize = 2`, `overlap_ratio = 0`. -/
theorem stitched_length_witness :
    ((∀ xs : List ℚ, xs.length = xs.length)
        ∧ 1 ≤ ([1, 2] : List ℚ).length ∧ 1 ≤ (2 : ℤ)
        ∧ (0 : ℚ) ≤ 0 ∧ (0 : ℚ) < 1)
      ∧ ∃ out rest,
          windowed_audio_rendering (fun l => l) ([1, 2] : List ℚ) 2 0 = .ok (out, rest)
            ∧ out.length = ([1, 2] : List ℚ).length :=
  ⟨⟨fun _ => rfl, by decide, by decide, by decide, by decide⟩,
   stitched_length (fun l => l) ([1, 2] : List ℚ) 2 0 (fun _ => rfl)
     (by decide) (by decide) (by decide) (by decide)⟩

unseal Rat.add Rat.mul Rat.inv in
/-- Counterexample to C4: a run over `tnsr = [1]` with `max_winsize = 1`
and `overlap_ratio = 0` produces `k = 1` window, yet `match_scores` has
`1` entry, not `k - 1 = 0`: the first window is itself merged against the
empty accumulator (scoring `1`), so there is one score per window. -/
theorem match_scores_counterexample :
    windowed_run (fun _ => (['a'] : List Char)) ([1] : List ℚ) 1 0
        = .ok ⟨[['a']], [0], 1, 0⟩
      ∧ windowed_stt_rendering (fun _ => (['a'] : List Char)) ([1] : List ℚ) 1 0 (4/5) 3
        = .ok (['a'], [1])
      ∧ (1 : ℕ) ≠ 1 - 1 :=
  ⟨rfl, rfl, by decide⟩

lemma stt_fold_go_length (thresh : ℚ) (mc : ℕ) (chunks : List (List Char))
    (acc : List Char × List ℚ) :
    ((chunks.foldl (sttStep thresh mc) acc).2).length
      = acc.2.length + chunks.length := by
  induction chunks generalizing acc with
  | nil => simp
  | cons ch rest ih =>
      rw [List.foldl_cons, ih]
      simp [sttStep]
      omega

lemma stt_fold_scores_length (thresh : ℚ) (mc : ℕ) (chunks : List (List Char)) :
    (stt_fold thresh mc chunks).2.length = chunks.length := by
  unfold stt_fold
  rw [stt_fold_go_length]
  simp

/-- Claim C4 (amended).  For every successful `windowed_stt_rendering` run
that produces `k` per-window strings, `match_scores` is the ordered list
of one similarity score per merge step and has exactly `k` entries — one
per window, because the first window is merged into the empty accumulator
too (there is no merge-free first step). -/
theorem match_scores_length (mdl : List ℚ → List Char) (tnsr : List ℚ)
    (mw : ℤ) (orat thresh : ℚ) (mc : ℕ) (r : WRun (List Char))
    (hr : windowed_run mdl tnsr mw orat = .ok r) :
    ∃ merged scores,
      windowed_stt_rendering mdl tnsr mw orat thresh mc = .ok (merged, scores)
        ∧ scores.length = r.chunks.length
        ∧ r.chunks.length = r.begs.length := by
  unfold windowed_stt_rendering
  rw [hr]
  refine ⟨_, _, rfl, stt_fold_scores_length thresh mc r.chunks, ?_⟩
  revert hr
  unfold windowed_run
  cases hpy : pyRange0 tnsr.length (strideOf tnsr.length mw orat) with
  | error e => intro h; cases h
  | ok begs =>
      intro h
      have hinj := Except.ok.inj h
      subst hinj
      simp

unseal Rat.add Rat.mul Rat.inv in
/-- Witness for C4's amended theorem on a one-window run. -/
theorem match_scores_length_witness :
    windowed_run (fun _ => (['b'] : List Char)) ([1] : List ℚ) 1 0
        = .ok ⟨[['b']], [0], 1, 0⟩
      ∧ ∃ merged scores,
          windowed_stt_rendering (fun _ => (['b'] : List Char)) ([1] : List ℚ) 1 0 (4/5) 2
            = .ok (merged, scores)
            ∧ scores.length = (⟨[['b']], [0], 1, 0⟩ : WRun (List Char)).chunks.length
            ∧ (⟨[['b']], [0], 1, 0⟩ : WRun (List Char)).chunks.length
                = (⟨[['b']], [0], 1, 0⟩ : WRun (List Char)).begs.length :=
  ⟨rfl, match_scores_length (fun _ => (['b'] : List Char)) ([1] : List ℚ) 1 0 (4/5) 2
    ⟨[['b']], [0], 1, 0⟩ rfl⟩

lemma candScore_nil_acc (c : List Char) (i : ℕ) :
    candScore [] c i = lev_sim [] (c.take i) := by
  rw [candScore, pyTail_nil, pyTake]

/-- The first step of the merge fold: merging the first chunk into the
empty accumulator returns the chunk unchanged with score `1` whenever
`0 < thresh ≤ 1` and the search bound is positive. -/
lemma merge_empty_acc (c : List Char) (thresh : ℚ) (mc : ℕ)
    (h0 : 0 < thresh) (h1 : thresh ≤ 1) (hmc : 1 ≤ mc) :
    (merge_overlapping_strings [] c thresh (some mc)).1 = c
      ∧ (merge_overlapping_strings [] c thresh (some mc)).2.2 = 1 := by
  have heff : effRange [] c (some mc) = mc := rfl
  cases c with
  | nil =>
      have hcand : ∀ i, candScore ([] : List Char) [] i = 1 := by
        intro i
        rw [candScore_nil_acc]
        simp [lev_sim_nil_nil]
      have hscan := scanBest_of_greatest thresh (candScore [] []) mc (mc - 1)
        (by omega) (by rw [hcand]; exact h1) (fun j hj hj2 => absurd hj (by omega))
      constructor
      · simp [merge_overlapping_strings, heff, hscan]
      · simp [merge_overlapping_strings, heff, hscan, hcand]
  | cons d ds =>
      have hq0 : thresh ≤ candScore [] (d :: ds) 0 := by
        rw [candScore_nil_acc]
        simpa [lev_sim_nil_nil] using h1
      have hqi : ∀ j, 0 < j → j < mc → ¬ thresh ≤ candScore [] (d :: ds) j := by
        intro j hj _ hc
        rw [candScore_nil_acc] at hc
        have hne : (d :: ds).take j ≠ [] := by
          cases j with
          | zero => omega
          | succ j => simp
        rw [lev_sim_nil_of_ne _ hne] at hc
        exact absurd (lt_of_lt_of_le h0 hc) (lt_irrefl 0)
      have hscan := scanBest_of_greatest thresh (candScore [] (d :: ds)) mc 0
        (by omega) hq0 (fun j hj hj2 => hqi j hj hj2)
      constructor
      · simp [merge_overlapping_strings, heff, hscan]
      · have : candScore ([] : List Char) (d :: ds) 0 = 1 := by
          rw [candScore_nil_acc]
          simp [lev_sim_nil_nil]
        simp [merge_overlapping_strings, heff, hscan, this]

lemma stt_fold_go_append (thresh : ℚ) (mc : ℕ) (chunks : List (List Char))
    (acc : List Char × List ℚ) :
    ∃ t, (chunks.foldl (sttStep thresh mc) acc).2 = acc.2 ++ t := by
  induction chunks generalizing acc with
  | nil => exact ⟨[], by simp⟩
  | cons ch rest ih =>
      rw [List.foldl_cons]
      obtain ⟨t, ht⟩ := ih (sttStep thresh mc acc ch)
      refine ⟨[(merge_overlapping_strings acc.1 ch thresh (some mc)).2.2] ++ t, ?_⟩
      rw [ht]
      simp [sttStep]

/-- Claim C10.  For every `windowed_stt_rendering` run with
`0 < thresh ≤ 1`, a positive `max_overlap_characters` bound and at least
one window, the first entry of `match_scores` is `1` (never the `-1`
sentinel): the fold's first merge compares the empty accumulator with the
first chunk and its length-0 candidate (empty vs empty) scores `1`; the
merged string after this first step is the first window's text
unchanged. -/
theorem first_match_score_one (mdl : List ℚ → List Char) (tnsr : List ℚ)
    (mw : ℤ) (orat thresh : ℚ) (mc : ℕ) (r : WRun (List Char))
    (c : List Char) (cs : List (List Char))
    (h0 : 0 < thresh) (h1 : thresh ≤ 1) (hmc : 1 ≤ mc)
    (hr : windowed_run mdl tnsr mw orat = .ok r) (hc : r.chunks = c :: cs) :
    ∃ merged scores,
      windowed_stt_rendering mdl tnsr mw orat thresh mc = .ok (merged, scores)
        ∧ scores.head? = some 1
        ∧ (merge_overlapping_strings [] c thresh (some mc)).1 = c
        ∧ (merge_overlapping_strings [] c thresh (some mc)).2.2 = 1 := by
  obtain ⟨hm1, hm2⟩ := merge_empty_acc c thresh mc h0 h1 hmc
  unfold windowed_stt_rendering
  rw [hr]
  refine ⟨_, _, rfl, ?_, hm1, hm2⟩
  rw [hc]
  show (List.foldl (sttStep thresh mc) ([], []) (c :: cs)).2.head? = some 1
  rw [List.foldl_cons]
  obtain ⟨t, ht⟩ := stt_fold_go_append thresh mc cs (sttStep thresh mc ([], []) c)
  rw [ht]
  simp [sttStep, hm2]

unseal Rat.add Rat.mul Rat.inv in
/-- Witness for C10 on a one-window run with `thresh = 4/5`,
`max_overlap_characters = 2`. -/
theorem first_match_score_one_witness :
    ((0 : ℚ) < 4/5 ∧ (4/5 : ℚ) ≤ 1 ∧ 1 ≤ 2
        ∧ windowed_run (fun _ => (['c'] : List Char)) ([1] : List ℚ) 1 0
            = .ok ⟨[['c']], [0], 1, 0⟩
        ∧ (⟨[['c']], [0], 1, 0⟩ : WRun (List Char)).chunks = ['c'] :: [])
      ∧ ∃ merged scores,
          windowed_stt_rendering (fun _ => (['c'] : List Char)) ([1] : List ℚ) 1 0 (4/5) 2
            = .ok (merged, scores)
            ∧ scores.head? = some 1
            ∧ (merge_overlapping_strings [] ['c'] (4/5) (some 2)).1 = ['c']
            ∧ (merge_overlapping_strings [] ['c'] (4/5) (some 2)).2.2 = 1 :=
  ⟨⟨by decide, by decide, by decide, rfl, rfl⟩,
   first_match_score_one (fun _ => (['c'] : List Char)) ([1] : List ℚ) 1 0 (4/5) 2
     ⟨[['c']], [0], 1, 0⟩ ['c'] [] (by decide) (by decide) (by decide) rfl rfl⟩

unseal Rat.add Rat.mul Rat.inv in
/-- Counterexample to C9: with the abort flag set before the first window
iteration, the worker's `windowed_run` returns the bare `None` sentinel —
with *no* partial outputs at all — and the enclosing
`windowed_stt_rendering` then raises a `TypeError` when tuple-unpacking
`None`, so an exception *is* raised to the caller. -/
theorem abort_counterexample :
    worker_windowed_run (fun _ => true) (fun _ => (['a'] : List Char))
        ([1] : List ℚ) 1 0 = .ok none
      ∧ worker_windowed_stt_rendering (fun _ => true) (fun _ => (['a'] : List Char))
          ([1] : List ℚ) 1 0 (4/5) 3 = .error .typeError :=
  ⟨rfl, rfl⟩

lemma runWindows_none {α : Type} (ab : ℕ → Bool) (f : ℕ → α) :
    ∀ (begs : List ℕ) (i0 : ℕ), (∃ j, j < begs.length ∧ ab (i0 + j) = true) →
      runWindows ab f i0 begs = none := by
  intro begs
  induction begs with
  | nil =>
      rintro i0 ⟨j, hj, _⟩
      simp at hj
  | cons b bs ih =>
      rintro i0 ⟨j, hj, habj⟩
      by_cases h : ab i0
      · simp [runWindows, h]
      · have hj0 : j ≠ 0 := by
          intro h0
          subst h0
          rw [Nat.add_zero] at habj
          exact absurd habj (by simpa using h)
        have hrec : runWindows ab f (i0 + 1) bs = none := by
          refine ih (i0 + 1) ⟨j - 1, by simp at hj; omega, ?_⟩
          have he : i0 + 1 + (j - 1) = i0 + j := by omega
          rw [he]
          exact habj
        simp [runWindows, h, hrec]

/-- Claim C9 (amended).  If the abort flag is observed set at some check
before a window iteration, the worker's `windowed_run` stops at that check
and returns the bare `None` sentinel — discarding everything collected so
far, so the result carries *no* partial outputs — and the enclosing
`windowed_stt_rendering` then raises a `TypeError` while tuple-unpacking
`None`; the abort result is distinguishable from any successful result,
but an exception is raised inside the rendering call (the worker framework
emits whatever `run` produces, and here `run` propagates the error). -/
theorem abort_returns_none (ab : ℕ → Bool) (mdl : List ℚ → List Char)
    (tnsr : List ℚ) (mw : ℤ) (orat thresh : ℚ) (mc : ℕ) (r : WRun (List Char))
    (hr : windowed_run mdl tnsr mw orat = .ok r)
    (hab : ∃ j, j < r.begs.length ∧ ab j = true) :
    worker_windowed_run ab mdl tnsr mw orat = .ok none
      ∧ worker_windowed_stt_rendering ab mdl tnsr mw orat thresh mc
          = .error .typeError := by
  revert hr
  unfold windowed_run
  cases hpy : pyRange0 tnsr.length (strideOf tnsr.length mw orat) with
  | error e => intro h; cases h
  | ok begs =>
      intro h
      have hinj := Except.ok.inj h
      subst hinj
      simp only at hab
      have hnone := runWindows_none ab
        (fun b => mdl (windowBuffer tnsr b (winsizeOf tnsr.length mw).toNat)) begs 0
        (by simpa using hab)
      have hrw : worker_windowed_run ab mdl tnsr mw orat = .ok none := by
        unfold worker_windowed_run
        rw [hpy]
        simp [hnone]
      refine ⟨hrw, ?_⟩
      unfold worker_windowed_stt_rendering
      rw [hrw]

unseal Rat.add Rat.mul Rat.inv in
/-- Witness for C9's amended theorem: abort flag already set at check 0 on
a one-window run. -/
theorem abort_returns_none_witness :
    (windowed_run (fun _ => (['d'] : List Char)) ([1] : List ℚ) 1 0
        = .ok ⟨[['d']], [0], 1, 0⟩
      ∧ (0 < (⟨[['d']], [0], 1, 0⟩ : WRun (List Char)).begs.length ∧ true = true))
      ∧ worker_windowed_run (fun _ => true) (fun _ => (['d'] : List Char))
            ([1] : List ℚ) 1 0 = .ok none
        ∧ worker_windowed_stt_rendering (fun _ => true)
            (fun _ => (['d'] : List Char)) ([1] : List ℚ) 1 0 (4/5) 2
            = .error .typeError :=
  ⟨⟨rfl, by decide, rfl⟩,
   abort_returns_none (fun _ => true) (fun _ => (['d'] : List Char))
     ([1] : List ℚ) 1 0 (4/5) 2 ⟨[['d']], [0], 1, 0⟩ rfl ⟨0, by decide, rfl⟩⟩

end SttGui
